import Mathlib

/-!
Verification of the function convex_hull_inter (src/convex_hull_inter.py).

The embedding models numpy float64 entries, LP objective values and hull
volumes as exact rationals.  The three scipy primitives invoked by the
pipeline (scipy.spatial.ConvexHull, scipy.optimize.linprog,
scipy.spatial.HalfspaceIntersection) are external libraries, so they are
modelled as an abstract record of oracle functions: ConvexHull and
HalfspaceIntersection may raise (the source wraps each call in try/except,
so they are given Except-valued signatures), while linprog communicates
failure through the success flag of its returned result object and does not
raise on the well-formed inputs this pipeline constructs (finite objective
and constraint data built from hull equations).
-/

/-- A numpy ndarray over element type α: a shape list together with the flat
data buffer.  The length invariant holds for every numpy ndarray. -/
structure NDArray (α : Type) where
  shape : List Nat
  data : List α
  hlen : data.length = shape.prod

/-- Number of axes, numpy ndim. -/
def NDArray.ndim (a : NDArray α) : Nat := a.shape.length

/-- shape[0].  The source reads it only after checking ndim, where it exists;
headD makes the embedding total. -/
def NDArray.dim0 (a : NDArray α) : Nat := a.shape.headD 0

/-- shape[1], the number of columns of a 2-d array (num_dimensions, line 38). -/
def NDArray.dim1 (a : NDArray α) : Nat := a.shape.getD 1 0

/-- The rows of a 2-d array: chunk the flat buffer into dim0 rows of dim1. -/
def NDArray.rows (a : NDArray α) : List (List α) :=
  (List.range a.dim0).map (fun i => (a.data.drop (i * a.dim1)).take a.dim1)

/-- Result of scipy.spatial.ConvexHull: the facet equations (rows in the
layout [a1, ..., aN, b] meaning a . x + b <= 0) and the hull volume. -/
structure HullResult where
  equations : List (List ℚ)
  volume : ℚ

/-- Result object of scipy.optimize.linprog: the success flag, the optimal
objective value res.fun (named optfun here), and the argmin res.x. -/
structure LPResult where
  success : Bool
  optfun : ℚ
  x : List ℚ

/-- Abstract interface to the scipy primitives used by the pipeline.
ConvexHull and HalfspaceIntersection may raise, which the source catches;
linprog reports failure through its result object. -/
structure Oracles where
  convexHull : List (List ℚ) → Except String HullResult
  linprog : List ℚ → List (List ℚ) → List ℚ → LPResult
  halfspaceIntersection : List (List ℚ) → List ℚ → Except String (List (List ℚ))

/-- np.unique (line 39): the distinct values of the array, ascending. -/
def npUnique (l : List ℤ) : List ℤ :=
  List.insertionSort (fun a b => a ≤ b) l.dedup

/-- Q[y == label] (line 53): the rows of Q at positions whose label equals
the given one, in row order. -/
def classPoints (rows : List (List ℚ)) (ydata : List ℤ) (label : ℤ) :
    List (List ℚ) :=
  ((rows.zip ydata).filter (fun p => p.2 == label)).map Prod.fst

/-- The per-class loop of lines 50-73: for each label, take the rows of that
class, short-circuit (none) when the class has fewer than num_dimensions + 1
points (line 59) or when hull construction raises (lines 62-70, caught), and
otherwise stack the facet equations of all classes (np.vstack, line 73). -/
def buildHalfspaces (O : Oracles) (rows : List (List ℚ)) (ydata : List ℤ)
    (num_dimensions : Nat) : List ℤ → Option (List (List ℚ))
  | [] => some []
  | label :: rest =>
    if (classPoints rows ydata label).length < num_dimensions + 1 then none
    else
      match O.convexHull (classPoints rows ydata label) with
      | Except.error _ => none
      | Except.ok hull =>
        match buildHalfspaces O rows ydata num_dimensions rest with
        | none => none
        | some hs => some (hull.equations ++ hs)

/-- The LP objective c_lp (lines 87-88): zeros with a final -1, minimizing -t. -/
def lpC (num_dimensions : Nat) : List ℚ :=
  List.replicate num_dimensions 0 ++ [-1]

/-- A_ub (line 91): each halfspace row [a, b] contributes the row a ++ [1]
(the coefficients a = halfspaces[:, :-1] extended by the column of ones). -/
def lpAub (halfspaces : List (List ℚ)) : List (List ℚ) :=
  halfspaces.map (fun r => r.dropLast ++ [1])

/-- b_ub (lines 84, 92): the negated last entry of each halfspace row. -/
def lpBub (halfspaces : List (List ℚ)) : List ℚ :=
  halfspaces.map (fun r => -(r.getLastD 0))

/-- The linprog call of line 95 on the constraint system built from the
stacked halfspaces. -/
def lpRes (O : Oracles) (halfspaces : List (List ℚ)) (num_dimensions : Nat) :
    LPResult :=
  O.linprog (lpC num_dimensions) (lpAub halfspaces) (lpBub halfspaces)

/-- Stages 4 and 5 (lines 106-129), entered with the feasible point: the
HalfspaceIntersection call (raising is caught, lines 106-111), the vertex
count gate (line 118), and the final ConvexHull volume scaled by
(1 - factor_k) (lines 121-129, raising caught). -/
def postLP (O : Oracles) (halfspaces : List (List ℚ)) (num_dimensions : Nat)
    (factor_k : ℚ) (feasible_point : List ℚ) : ℚ :=
  match O.halfspaceIntersection halfspaces feasible_point with
  | Except.error _ => 0
  | Except.ok intersection_vertices =>
    if intersection_vertices.length < num_dimensions + 1 then 0
    else
      match O.convexHull intersection_vertices with
      | Except.error _ => 0
      | Except.ok final_hull => final_hull.volume * (1 - factor_k)

/-- Stage 3 (lines 83-103): solve the LP; if the solver does not succeed or
the optimal value res.fun exceeds -1e-9 return 0 (lines 99-101), otherwise
continue with the witness point res.x[:-1] (line 103).  The local variable
res of the source is inlined as lpRes. -/
def afterHalfspaces (O : Oracles) (halfspaces : List (List ℚ))
    (num_dimensions : Nat) (factor_k : ℚ) : ℚ :=
  if (lpRes O halfspaces num_dimensions).success = false ∨
      (lpRes O halfspaces num_dimensions).optfun > -(1/1000000000) then 0
  else postLP O halfspaces num_dimensions factor_k
    (lpRes O halfspaces num_dimensions).x.dropLast

/-- The full pipeline of convex_hull_inter (lines 34-129); factor_h is
accepted and unused, exactly as in the source.  The factors are modelled as
rationals: the annotations say float and int but Python does not enforce
them and the function only uses factor_k numerically. -/
def convex_hull_inter (O : Oracles) (Q : NDArray ℚ) (y : NDArray ℤ)
    (factor_h : ℚ) (factor_k : ℚ) : ℚ :=
  if Q.ndim ≠ 2 ∨ y.ndim ≠ 1 ∨ Q.dim0 ≠ y.dim0 ∨ Q.dim0 = 0 then 0
  else
    if (npUnique y.data).length < 2 then 0
    else
      match buildHalfspaces O Q.rows y.data Q.dim1 (npUnique y.data) with
      | none => 0
      | some halfspaces => afterHalfspaces O halfspaces Q.dim1 factor_k

/-- The same pipeline with exception flow made explicit: every point where
the source catches an exception (lines 62-70, 106-111, 121-129) maps the
raised error to the caught Except.ok 0, and a propagated exception would
surface as Except.error.  Used to state that no input and no oracle
behavior makes the function propagate an exception. -/
def convex_hull_inter_exc (O : Oracles) (Q : NDArray ℚ) (y : NDArray ℤ)
    (factor_h : ℚ) (factor_k : ℚ) : Except String ℚ :=
  if Q.ndim ≠ 2 ∨ y.ndim ≠ 1 ∨ Q.dim0 ≠ y.dim0 ∨ Q.dim0 = 0 then Except.ok 0
  else
    if (npUnique y.data).length < 2 then Except.ok 0
    else
      match buildHalfspaces O Q.rows y.data Q.dim1 (npUnique y.data) with
      | none => Except.ok 0
      | some halfspaces =>
        if (lpRes O halfspaces Q.dim1).success = false ∨
            (lpRes O halfspaces Q.dim1).optfun > -(1/1000000000) then Except.ok 0
        else
          match O.halfspaceIntersection halfspaces
              (lpRes O halfspaces Q.dim1).x.dropLast with
          | Except.error _ => Except.ok 0
          | Except.ok intersection_vertices =>
            if intersection_vertices.length < Q.dim1 + 1 then Except.ok 0
            else
              match O.convexHull intersection_vertices with
              | Except.error _ => Except.ok 0
              | Except.ok final_hull =>
                Except.ok (final_hull.volume * (1 - factor_k))

/-! Concrete fixtures used by witnesses and counterexamples.  The arrays are
genuine ndarrays (shape and buffer agree); the oracle records are concrete
behaviors of the external scipy primitives. -/

/-- A hull result with one facet equation and unit volume. -/
def okHull : HullResult := ⟨[[1, -1]], 1⟩

/-- A 4 x 1 point matrix. -/
def Qfour : NDArray ℚ := ⟨[4, 1], [0, 1, 2, 3], rfl⟩

/-- Labels splitting Qfour into two classes of two points each. -/
def yfour : NDArray ℤ := ⟨[4], [0, 0, 1, 1], rfl⟩

/-- Oracle behavior for a fully successful run: hulls build, the LP returns
strictly feasible slack, and the enumerator returns two vertices. -/
def oracleA : Oracles :=
  ⟨fun _ => Except.ok okHull,
   fun _ _ _ => ⟨true, -1, [0, 0]⟩,
   fun _ _ => Except.ok [[0], [1]]⟩

/-- Oracle behavior where the LP solver reports failure. -/
def oracleB : Oracles :=
  ⟨fun _ => Except.ok okHull,
   fun _ _ _ => ⟨false, 0, []⟩,
   fun _ _ => Except.ok [[0], [1]]⟩

/-- Oracle behavior where vertex enumeration yields a single vertex. -/
def oracleC : Oracles :=
  ⟨fun _ => Except.ok okHull,
   fun _ _ _ => ⟨true, -1, [0, 0]⟩,
   fun _ _ => Except.ok [[0]]⟩

/-- Oracle behavior where vertex enumeration yields one vertex listed twice. -/
def oracleD : Oracles :=
  ⟨fun _ => Except.ok okHull,
   fun _ _ _ => ⟨true, -1, [0, 0]⟩,
   fun _ _ => Except.ok [[0], [0]]⟩

/-- A 2 x 1 point matrix paired with a single repeated label. -/
def Qone : NDArray ℚ := ⟨[2, 1], [0, 1], rfl⟩

/-- A single-class label vector for Qone. -/
def yone : NDArray ℤ := ⟨[2], [5, 5], rfl⟩

/-- A 3 x 1 point matrix whose second class has only one point. -/
def Qdef : NDArray ℚ := ⟨[3, 1], [0, 1, 2], rfl⟩

/-- Labels giving class 0 two points and class 1 a single point, which for
num_dimensions = 1 is exactly N points, fewer than N + 1. -/
def ydef : NDArray ℤ := ⟨[3], [0, 0, 1], rfl⟩

/-- Claim C1: for every input and every behavior of the external primitives,
including ConvexHull or HalfspaceIntersection raising at any call site, the
pipeline never propagates an exception: the exception-explicit embedding
always returns Except.ok, and its value is the sentinel-collapsing result
of convex_hull_inter. -/
theorem no_exception_c1 (O : Oracles) (Q : NDArray ℚ) (y : NDArray ℤ)
    (fh fk : ℚ) :
    convex_hull_inter_exc O Q y fh fk =
      Except.ok (convex_hull_inter O Q y fh fk) := by
  unfold convex_hull_inter_exc convex_hull_inter afterHalfspaces postLP
  repeat' split <;> try rfl

/-- Claim C8: the result never depends on factor_h; two calls differing only
in factor_h agree.  The parameter is accepted and never read. -/
theorem factor_h_unused_c8 (O : Oracles) (Q : NDArray ℚ) (y : NDArray ℤ)
    (fh fh' fk : ℚ) :
    convex_hull_inter O Q y fh fk = convex_hull_inter O Q y fh' fk := rfl

/-- Claim C3: any shape-validation failure (Q not 2-d, y not 1-d, mismatched
leading dimensions, zero rows, lines 34-36) or fewer than two distinct labels
(lines 39-45) forces the immediate zero result, for every behavior of the
external primitives. -/
theorem validation_zero_c3 (O : Oracles) (Q : NDArray ℚ) (y : NDArray ℤ)
    (fh fk : ℚ)
    (h : Q.ndim ≠ 2 ∨ y.ndim ≠ 1 ∨ Q.dim0 ≠ y.dim0 ∨ Q.dim0 = 0 ∨
      (npUnique y.data).length < 2) :
    convex_hull_inter O Q y fh fk = 0 := by
  unfold convex_hull_inter
  by_cases h1 : Q.ndim ≠ 2 ∨ y.ndim ≠ 1 ∨ Q.dim0 ≠ y.dim0 ∨ Q.dim0 = 0
  · rw [if_pos h1]
  · rw [if_neg h1]
    have h2 : (npUnique y.data).length < 2 := by tauto
    rw [if_pos h2]

/-- Witness for validation_zero_c3: a concrete single-class input (all of
yone equals 5) yields exactly 0. -/
theorem validation_zero_c3_w : convex_hull_inter oracleA Qone yone 0 0 = 0 :=
  validation_zero_c3 oracleA Qone yone 0 0 (by decide)

/-- If some label of the list owns fewer than num_dimensions + 1 points, the
per-class loop short-circuits to none, whatever the hull engine does on the
other classes (lines 51-60). -/
theorem buildHalfspaces_none_of_deficient (O : Oracles) (rows : List (List ℚ))
    (ydata : List ℤ) (N : Nat) :
    ∀ labels : List ℤ,
      (∃ l ∈ labels, (classPoints rows ydata l).length < N + 1) →
      buildHalfspaces O rows ydata N labels = none
  | [], h => absurd h (by simp)
  | label :: rest, h => by
    unfold buildHalfspaces
    by_cases hsz : (classPoints rows ydata label).length < N + 1
    · rw [if_pos hsz]
    · rw [if_neg hsz]
      rcases h with ⟨l, hl, hlen⟩
      rcases List.mem_cons.mp hl with rfl | hl'
      · exact absurd hlen hsz
      · cases hc : O.convexHull (classPoints rows ydata label) with
        | error e => rfl
        | ok hull =>
          rw [buildHalfspaces_none_of_deficient O rows ydata N rest
            ⟨l, hl', hlen⟩]

/-- Claim C4: if any class has fewer than N + 1 points (N the number of
columns of Q), the whole computation short-circuits to 0; the conclusion
holds for every oracle, so no hull construction can influence it. -/
theorem deficient_class_zero_c4 (O : Oracles) (Q : NDArray ℚ) (y : NDArray ℤ)
    (fh fk : ℚ)
    (h : ∃ l ∈ npUnique y.data,
      (classPoints Q.rows y.data l).length < Q.dim1 + 1) :
    convex_hull_inter O Q y fh fk = 0 := by
  unfold convex_hull_inter
  split
  · rfl
  · split
    · rfl
    · rw [buildHalfspaces_none_of_deficient O Q.rows y.data Q.dim1
        (npUnique y.data) h]

/-- Witness for deficient_class_zero_c4: class 1 of (Qdef, ydef) has exactly
N = 1 point, one fewer than N + 1, and the result is 0. -/
theorem deficient_class_zero_c4_w : convex_hull_inter oracleA Qdef ydef 0 0 = 0 :=
  deficient_class_zero_c4 oracleA Qdef ydef 0 0 ⟨1, by decide, by decide⟩

/-- Once validation and the label gate pass and the per-class loop produced a
stacked system, the result is afterHalfspaces on that system (lines 73-129). -/
theorem chi_eq_afterHalfspaces (O : Oracles) (Q : NDArray ℚ) (y : NDArray ℤ)
    (fh fk : ℚ) (hs : List (List ℚ))
    (hval : ¬ (Q.ndim ≠ 2 ∨ y.ndim ≠ 1 ∨ Q.dim0 ≠ y.dim0 ∨ Q.dim0 = 0))
    (hlab : ¬ ((npUnique y.data).length < 2))
    (hbh : buildHalfspaces O Q.rows y.data Q.dim1 (npUnique y.data) = some hs) :
    convex_hull_inter O Q y fh fk = afterHalfspaces O hs Q.dim1 fk := by
  unfold convex_hull_inter
  rw [if_neg hval, if_neg hlab, hbh]

/-- When the LP succeeds with res.fun at most -1e-9, the gate of lines 99-101
is not taken and the pipeline continues with res.x[:-1]. -/
theorem afterHalfspaces_eq_postLP (O : Oracles) (hs : List (List ℚ)) (N : Nat)
    (fk : ℚ) (hsucc : (lpRes O hs N).success = true)
    (htol : (lpRes O hs N).optfun ≤ -(1/1000000000)) :
    afterHalfspaces O hs N fk = postLP O hs N fk (lpRes O hs N).x.dropLast := by
  unfold afterHalfspaces
  rw [if_neg]
  rintro (hc | hc)
  · rw [hsucc] at hc
    simp at hc
  · exact absurd htol (not_le.mpr hc)

/-- Claim C5: with the pipeline at the feasibility stage, the LP gate of
lines 99-101 returns 0 whenever the solver does not report success or the
optimal value res.fun is above -1e-9 (uniform slack t* below the tolerance),
and only otherwise continues, with the witness point res.x[:-1]. -/
theorem lp_gate_c5 (O : Oracles) (Q : NDArray ℚ) (y : NDArray ℤ)
    (fh fk : ℚ) (hs : List (List ℚ))
    (hval : ¬ (Q.ndim ≠ 2 ∨ y.ndim ≠ 1 ∨ Q.dim0 ≠ y.dim0 ∨ Q.dim0 = 0))
    (hlab : ¬ ((npUnique y.data).length < 2))
    (hbh : buildHalfspaces O Q.rows y.data Q.dim1 (npUnique y.data) = some hs) :
    ((lpRes O hs Q.dim1).success = false ∨
        (lpRes O hs Q.dim1).optfun > -(1/1000000000) →
      convex_hull_inter O Q y fh fk = 0) ∧
    ((lpRes O hs Q.dim1).success = true →
      (lpRes O hs Q.dim1).optfun ≤ -(1/1000000000) →
      convex_hull_inter O Q y fh fk =
        postLP O hs Q.dim1 fk (lpRes O hs Q.dim1).x.dropLast) := by
  constructor
  · intro hgate
    rw [chi_eq_afterHalfspaces O Q y fh fk hs hval hlab hbh]
    unfold afterHalfspaces
    rw [if_pos hgate]
  · intro hsucc htol
    rw [chi_eq_afterHalfspaces O Q y fh fk hs hval hlab hbh]
    exact afterHalfspaces_eq_postLP O hs Q.dim1 fk hsucc htol

/-- Witness for lp_gate_c5: a concrete run in which the solver reports
failure collapses to 0. -/
theorem lp_gate_c5_w : convex_hull_inter oracleB Qfour yfour 0 0 = 0 :=
  (lp_gate_c5 oracleB Qfour yfour 0 0 [[1, -1], [1, -1]] (by decide) (by decide)
    (by with_unfolding_all decide)).1 (Or.inl (by with_unfolding_all decide))

/-- Claim C6 (amended): if the enumerator returns a vertex list of length
below N + 1 (counted as returned, line 118 checks the raw length), the
result is 0 and the final hull stage is not reached. -/
theorem vertex_count_gate_c6 (O : Oracles) (Q : NDArray ℚ) (y : NDArray ℤ)
    (fh fk : ℚ) (hs verts : List (List ℚ))
    (hval : ¬ (Q.ndim ≠ 2 ∨ y.ndim ≠ 1 ∨ Q.dim0 ≠ y.dim0 ∨ Q.dim0 = 0))
    (hlab : ¬ ((npUnique y.data).length < 2))
    (hbh : buildHalfspaces O Q.rows y.data Q.dim1 (npUnique y.data) = some hs)
    (hsucc : (lpRes O hs Q.dim1).success = true)
    (htol : (lpRes O hs Q.dim1).optfun ≤ -(1/1000000000))
    (hhsi : O.halfspaceIntersection hs (lpRes O hs Q.dim1).x.dropLast =
      Except.ok verts)
    (hcount : verts.length < Q.dim1 + 1) :
    convex_hull_inter O Q y fh fk = 0 := by
  rw [chi_eq_afterHalfspaces O Q y fh fk hs hval hlab hbh,
    afterHalfspaces_eq_postLP O hs Q.dim1 fk hsucc htol]
  unfold postLP
  rw [hhsi]
  dsimp only
  rw [if_pos hcount]

/-- Witness for vertex_count_gate_c6: a run whose enumerator returns a
single vertex (below N + 1 = 2) gives 0. -/
theorem vertex_count_gate_c6_w : convex_hull_inter oracleC Qfour yfour 0 0 = 0 :=
  vertex_count_gate_c6 oracleC Qfour yfour 0 0 [[1, -1], [1, -1]] [[0]]
    (by decide) (by decide) (by with_unfolding_all decide) rfl
    (by with_unfolding_all decide) rfl (by decide)

/-- Counterexample to claim C6 as stated: the gate of line 118 counts the
returned list with multiplicity, not distinct vertices.  Here the enumerator
returns the vertex [0] twice: the list has fewer than N + 1 = 2 distinct
vertices, yet the pipeline proceeds to the final hull stage and returns its
volume 1 instead of 0. -/
theorem distinct_vertices_c6_cex :
    oracleD.halfspaceIntersection [[1, -1], [1, -1]]
        (lpRes oracleD [[1, -1], [1, -1]] Qfour.dim1).x.dropLast =
      Except.ok [[0], [0]] ∧
    ([[0], [0]] : List (List ℚ)).dedup.length < Qfour.dim1 + 1 ∧
    convex_hull_inter oracleD Qfour yfour 0 0 = 1 :=
  ⟨rfl, by with_unfolding_all decide, by with_unfolding_all decide⟩

/-- Claim C2: on the success path the result is the final hull volume times
(1 - factor_k), for every factor_k with all other arguments fixed, hence the
result is linear in (1 - factor_k); in particular the results at
factor_k = 1/5 and factor_k = 1/2 stand in the exact ratio (4/5) / (1/2). -/
theorem success_scale_c2 (O : Oracles) (Q : NDArray ℚ) (y : NDArray ℤ)
    (fh : ℚ) (hs verts : List (List ℚ)) (hull : HullResult)
    (hval : ¬ (Q.ndim ≠ 2 ∨ y.ndim ≠ 1 ∨ Q.dim0 ≠ y.dim0 ∨ Q.dim0 = 0))
    (hlab : ¬ ((npUnique y.data).length < 2))
    (hbh : buildHalfspaces O Q.rows y.data Q.dim1 (npUnique y.data) = some hs)
    (hsucc : (lpRes O hs Q.dim1).success = true)
    (htol : (lpRes O hs Q.dim1).optfun ≤ -(1/1000000000))
    (hhsi : O.halfspaceIntersection hs (lpRes O hs Q.dim1).x.dropLast =
      Except.ok verts)
    (hcount : ¬ (verts.length < Q.dim1 + 1))
    (hfin : O.convexHull verts = Except.ok hull) :
    (∀ fk : ℚ, convex_hull_inter O Q y fh fk = hull.volume * (1 - fk)) ∧
    (1/2) * convex_hull_inter O Q y fh (1/5) =
      (4/5) * convex_hull_inter O Q y fh (1/2) := by
  have key : ∀ fk : ℚ, convex_hull_inter O Q y fh fk = hull.volume * (1 - fk) := by
    intro fk
    rw [chi_eq_afterHalfspaces O Q y fh fk hs hval hlab hbh,
      afterHalfspaces_eq_postLP O hs Q.dim1 fk hsucc htol]
    unfold postLP
    rw [hhsi]
    dsimp only
    rw [if_neg hcount, hfin]
  refine ⟨key, ?_⟩
  rw [key, key]
  ring

/-- Witness for success_scale_c2: a concrete successful run evaluated at
factor_k = 1/5 equals the hull volume scaled by 4/5. -/
theorem success_scale_c2_w :
    convex_hull_inter oracleA Qfour yfour 0 (1/5) = okHull.volume * (1 - 1/5) :=
  (success_scale_c2 oracleA Qfour yfour 0 [[1, -1], [1, -1]] [[0], [1]] okHull
    (by decide) (by decide) (by with_unfolding_all decide) rfl
    (by with_unfolding_all decide) rfl (by decide) rfl).1 (1/5)

/-- Counterexample to claim C7 as stated: the returned value is not
non-negative for every input.  The source multiplies the final hull volume
by (1 - factor_k) with no restriction on factor_k (line 125), so a
successful run with factor_k = 2 returns a negative number. -/
theorem negative_result_c7_cex : convex_hull_inter oracleA Qfour yfour 0 2 < 0 := by
  with_unfolding_all decide

/-- Claim C7 (amended): whenever factor_k is at most 1 and the hull engine
reports non-negative volumes (as a genuine volume measure does), the result
is non-negative; every failure gate returns exactly 0. -/
theorem result_nonneg_c7 (O : Oracles) (Q : NDArray ℚ) (y : NDArray ℤ)
    (fh fk : ℚ)
    (hvol : ∀ ps hull, O.convexHull ps = Except.ok hull → 0 ≤ hull.volume)
    (hk : fk ≤ 1) :
    0 ≤ convex_hull_inter O Q y fh fk := by
  unfold convex_hull_inter afterHalfspaces postLP
  split
  · exact le_refl 0
  · split
    · exact le_refl 0
    · split
      · exact le_refl 0
      · split
        · exact le_refl 0
        · split
          · exact le_refl 0
          · split
            · exact le_refl 0
            · split
              · exact le_refl 0
              · rename_i hull hfin
                exact mul_nonneg (hvol _ _ hfin) (by linarith)

/-- Witness for result_nonneg_c7: a concrete successful run with
factor_k = 0 and unit hull volumes returns a non-negative value. -/
theorem result_nonneg_c7_w : 0 ≤ convex_hull_inter oracleA Qfour yfour 0 0 :=
  result_nonneg_c7 oracleA Qfour yfour 0 0
    (by
      intro ps hull h
      simp only [oracleA, Except.ok.injEq] at h
      rw [← h]
      norm_num [okHull])
    (by norm_num)

/-- The chunked row list of an array always has dim0 entries. -/
theorem rows_length (a : NDArray α) : a.rows.length = a.dim0 := by
  simp [NDArray.rows]

/-- For a genuine 1-d ndarray the buffer length is the leading dimension. -/
theorem data_length_of_ndim_one (a : NDArray α) (h : a.ndim = 1) :
    a.data.length = a.dim0 := by
  rcases hs : a.shape with _ | ⟨m, rest⟩
  · rw [NDArray.ndim, hs] at h
    simp at h
  · rcases rest with _ | ⟨k, r2⟩
    · rw [NDArray.dim0, hs]
      have hl := a.hlen
      rw [hs] at hl
      simpa using hl
    · rw [NDArray.ndim, hs] at h
      simp at h

/-- np.unique depends only on the multiset of labels: permuted label arrays
produce the same sorted distinct-value list. -/
theorem npUnique_eq_of_perm {l₁ l₂ : List ℤ} (h : l₁.Perm l₂) :
    npUnique l₁ = npUnique l₂ := by
  haveI : IsAntisymm ℤ (fun a b : ℤ => a ≤ b) :=
    ⟨fun a b hab hba => le_antisymm hab hba⟩
  haveI : IsTotal ℤ (fun a b : ℤ => a ≤ b) := ⟨fun a b => le_total a b⟩
  haveI : IsTrans ℤ (fun a b : ℤ => a ≤ b) :=
    ⟨fun a b c hab hbc => le_trans hab hbc⟩
  exact List.eq_of_perm_of_sorted
    (((List.perm_insertionSort _ _).trans h.dedup).trans
      (List.perm_insertionSort _ _).symm)
    (List.sorted_insertionSort _ _) (List.sorted_insertionSort _ _)

/-- A joint permutation of rows and labels permutes every class point set. -/
theorem classPoints_perm {rows rows' : List (List ℚ)} {yd yd' : List ℤ}
    (h : (rows.zip yd).Perm (rows'.zip yd')) (label : ℤ) :
    (classPoints rows yd label).Perm (classPoints rows' yd' label) :=
  (h.filter _).map _

/-- If the hull engine depends only on the point set (is invariant under
permutations of its input list), the per-class loop gives identical output
on jointly permuted rows and labels. -/
theorem buildHalfspaces_congr (O : Oracles)
    (hO : ∀ ps ps', ps.Perm ps' → O.convexHull ps = O.convexHull ps')
    {rows rows' : List (List ℚ)} {yd yd' : List ℤ}
    (h : (rows.zip yd).Perm (rows'.zip yd')) (N : Nat) :
    ∀ labels : List ℤ,
      buildHalfspaces O rows yd N labels = buildHalfspaces O rows' yd' N labels
  | [] => rfl
  | label :: rest => by
    have hcp := classPoints_perm h label
    unfold buildHalfspaces
    rw [hcp.length_eq, hO _ _ hcp, buildHalfspaces_congr O hO h N rest]

/-- Claim C9: permuting the rows of Q and the entries of y together (same
correspondence, so shapes are preserved and the zipped row-label list is
permuted) leaves the result unchanged, provided the hull engine depends only
on the point set it receives, which is the mathematical semantics of convex
hull construction. -/
theorem permutation_invariance_c9 (O : Oracles) (Q Q' : NDArray ℚ)
    (y y' : NDArray ℤ) (fh fk : ℚ)
    (hO : ∀ ps ps', ps.Perm ps' → O.convexHull ps = O.convexHull ps')
    (hsQ : Q.shape = Q'.shape) (hsy : y.shape = y'.shape)
    (hperm : (Q.rows.zip y.data).Perm (Q'.rows.zip y'.data)) :
    convex_hull_inter O Q y fh fk = convex_hull_inter O Q' y' fh fk := by
  have hnd : Q.ndim = Q'.ndim := by simp only [NDArray.ndim, hsQ]
  have hndy : y.ndim = y'.ndim := by simp only [NDArray.ndim, hsy]
  have hd0 : Q.dim0 = Q'.dim0 := by simp only [NDArray.dim0, hsQ]
  have hd0y : y.dim0 = y'.dim0 := by simp only [NDArray.dim0, hsy]
  have hd1 : Q.dim1 = Q'.dim1 := by simp only [NDArray.dim1, hsQ]
  unfold convex_hull_inter
  by_cases hval : Q.ndim ≠ 2 ∨ y.ndim ≠ 1 ∨ Q.dim0 ≠ y.dim0 ∨ Q.dim0 = 0
  · have hval' : Q'.ndim ≠ 2 ∨ y'.ndim ≠ 1 ∨ Q'.dim0 ≠ y'.dim0 ∨ Q'.dim0 = 0 := by
      rw [← hnd, ← hndy, ← hd0, ← hd0y]
      exact hval
    rw [if_pos hval, if_pos hval']
  · have hval' :
        ¬ (Q'.ndim ≠ 2 ∨ y'.ndim ≠ 1 ∨ Q'.dim0 ≠ y'.dim0 ∨ Q'.dim0 = 0) := by
      rw [← hnd, ← hndy, ← hd0, ← hd0y]
      exact hval
    rw [if_neg hval, if_neg hval']
    push_neg at hval
    obtain ⟨h2, h1, hdd, hne⟩ := hval
    have hlen : y.data.length = Q.rows.length := by
      rw [rows_length, data_length_of_ndim_one y h1, hdd]
    have hlen' : y'.data.length = Q'.rows.length := by
      rw [rows_length, data_length_of_ndim_one y' (by rw [← hndy]; exact h1),
        ← hd0, ← hd0y, hdd]
    have hyd : y.data.Perm y'.data := by
      have hm := hperm.map Prod.snd
      rwa [List.map_snd_zip _ _ (le_of_eq hlen),
        List.map_snd_zip _ _ (le_of_eq hlen')] at hm
    rw [npUnique_eq_of_perm hyd, hd1, buildHalfspaces_congr O hO hperm Q'.dim1]

/-- Qfour with its middle rows swapped. -/
def Qperm : NDArray ℚ := ⟨[4, 1], [0, 2, 1, 3], rfl⟩

/-- yfour with its middle entries swapped, matching the row swap of Qperm. -/
def yperm : NDArray ℤ := ⟨[4], [0, 1, 0, 1], rfl⟩

/-- Witness for permutation_invariance_c9: swapping rows 1 and 2 of the
concrete input together with their labels leaves the result unchanged. -/
theorem permutation_invariance_c9_w :
    convex_hull_inter oracleA Qfour yfour 0 0 =
      convex_hull_inter oracleA Qperm yperm 0 0 :=
  permutation_invariance_c9 oracleA Qfour Qperm yfour yperm 0 0
    (fun _ _ _ => rfl) rfl rfl (by with_unfolding_all decide)
